/-
Verification of the invoice OCR extraction app (src/app.py).

The app's meaningful logic is `extract_info` — five independent Python
regular-expression searches over the flattened OCR text — plus a small
record store (a pandas DataFrame held in session state) mutated by
append, wholesale edit, and clear, and exported to a one-sheet
spreadsheet.

The embedding below models the OCR text as a `List Char`.  Each regex of
the source is embedded as an executable leftmost-match search:
a per-position matcher (faithful to the regex's backtracking behaviour
at one start position) scanned over start positions in ascending order,
exactly as CPython's `re.search` does.  Character classes are modelled
on the character repertoire relevant to this app (ASCII plus CJK
ideographs): `\d` as ASCII digits, `\w` as ASCII alphanumerics,
underscore and CJK ideographs, `\s` as ASCII whitespace.
-/
import Mathlib

namespace InvoiceApp

/-! ## Text primitives -/

/-- Character at position `i` of the text (`none` past the end). -/
def charAt (t : List Char) (i : Nat) : Option Char := t[i]?

/-- Does the character at position `i` exist and satisfy `p`? -/
def testAt (p : Char → Bool) (t : List Char) (i : Nat) : Bool :=
  match charAt t i with
  | some c => p c
  | none => false

/-- Do the `n` characters starting at position `i` all exist and satisfy `p`? -/
def allAt (p : Char → Bool) (t : List Char) (i n : Nat) : Bool :=
  (List.range n).all fun k => testAt p t (i + k)

/-- The substring of length (at most) `n` starting at position `i`. -/
def slice (t : List Char) (i n : Nat) : List Char := (t.drop i).take n

/-- Length of the maximal run of decimal digits starting at position `j`
(the text consumed by a greedy `\d+` or `\d*` at `j`). -/
def drl (t : List Char) (j : Nat) : Nat :=
  ((t.drop j).takeWhile Char.isDigit).length

/-- Model of Python's `\w` on this app's character repertoire:
ASCII alphanumerics, underscore, and CJK unified ideographs
(CPython's Unicode `\w` contains all of these). -/
def isWordChar (c : Char) : Bool :=
  c.isAlphanum || c = '_' || (0x4E00 ≤ c.val && c.val ≤ 0x9FFF)

/-- Model of Python's `\s` (ASCII part). -/
def isSpaceChar (c : Char) : Bool :=
  c = ' ' || c = '\t' || c = '\n' || c = '\r' || c = '\x0b' || c = '\x0c'

/-- The date-separator class `[/.-]` of the source. -/
def isSepChar (c : Char) : Bool := c = '/' || c = '.' || c = '-'

/-- The class `[A-Z]` of the source (ASCII uppercase only). -/
def isUpperAZ (c : Char) : Bool := 'A' ≤ c && c ≤ 'Z'

/-! ## Leftmost search

`re.search` tries the pattern at start positions 0, 1, 2, … and returns
the first position where the pattern matches.  `scanFrom f i fuel`
scans `f` at `i, i+1, …` (at most `fuel` positions); `reSearch f n`
scans positions `0 … n`. -/

def scanFrom {α : Type} (f : Nat → Option α) : Nat → Nat → Option α
  | _, 0 => none
  | i, fuel + 1 =>
    match f i with
    | some a => some a
    | none => scanFrom f (i + 1) fuel

def reSearch {α : Type} (f : Nat → Option α) (n : Nat) : Option α :=
  scanFrom f 0 (n + 1)

/-! ## Seller id: regex `\b\d{8}\b` (source line 33)

`\b` is a word boundary.  Since `\d{8}` begins and ends with a digit
(a word character), the boundary before the run demands that the run is
at the start of the text or preceded by a non-word character, and the
boundary after demands the end of the text or a following non-word
character. -/

def sellerOk (t : List Char) (i : Nat) : Bool :=
  (i == 0 || !testAt isWordChar t (i - 1)) &&
    allAt Char.isDigit t i 8 && !testAt isWordChar t (i + 8)

def sellerMatchAt (t : List Char) (i : Nat) : Option (List Char) :=
  if sellerOk t i then some (slice t i 8) else none

/-- `seller_id = re.search(r'\b\d{8}\b', full_text)`, `group(0)` if found
else `""` (source lines 33–34). -/
def seller_id (t : List Char) : String :=
  match reSearch (sellerMatchAt t) t.length with
  | some g => String.mk g
  | none => ""

/-- Declarative form of a `\b\d{8}\b` match at position `i`. -/
def SellerRunAt (t : List Char) (i : Nat) : Prop :=
  (i = 0 ∨ testAt isWordChar t (i - 1) = false) ∧
    (∀ k, k < 8 → testAt Char.isDigit t (i + k) = true) ∧
    testAt isWordChar t (i + 8) = false

instance (t : List Char) (i : Nat) : Decidable (SellerRunAt t i) := by
  unfold SellerRunAt; infer_instance

/-! ## Invoice date: regex `(\d{3,4})[/.-](\d{2})[/.-](\d{2})`
(source lines 37–43)

`\d{3,4}` is greedy: at one start position the engine first tries a
4-digit year, then backtracks to 3 digits.  The two cannot both succeed
at the same position (the 4-digit variant needs a digit where the
3-digit variant needs a separator), so the per-position matcher is a
plain if-then-else. -/

def dateOk (t : List Char) (i ylen : Nat) : Bool :=
  allAt Char.isDigit t i ylen && testAt isSepChar t (i + ylen) &&
    allAt Char.isDigit t (i + ylen + 1) 2 && testAt isSepChar t (i + ylen + 3) &&
    allAt Char.isDigit t (i + ylen + 4) 2

def dateMatchAt (t : List Char) (i : Nat) :
    Option (List Char × List Char × List Char) :=
  if dateOk t i 4 then
    some (slice t i 4, slice t (i + 5) 2, slice t (i + 8) 2)
  else if dateOk t i 3 then
    some (slice t i 3, slice t (i + 4) 2, slice t (i + 7) 2)
  else none

/-- `int(y)` on the digit string `y` (Python `int` of a digit run). -/
def digitsToNat (cs : List Char) : Nat :=
  cs.foldl (fun n c => 10 * n + (c.toNat - 48)) 0

/-- The normalized output `f"{y}/{m}/{d}"`, after `y = str(int(y) + 1911)`
when the year group has 3 digits (source lines 40–43). -/
def dateFormat (y m d : List Char) : String :=
  let y2 := if y.length == 3 then Nat.toDigits 10 (digitsToNat y + 1911) else y
  String.mk (y2 ++ '/' :: (m ++ '/' :: d))

/-- `date_str` of the source: formatted first date match, else `""`. -/
def date_str (t : List Char) : String :=
  match reSearch (dateMatchAt t) t.length with
  | some (y, m, d) => dateFormat y m d
  | none => ""

/-- Declarative form of a year(`ylen` digits)-sep-month-sep-day match at `i`. -/
def DateAt (t : List Char) (i ylen : Nat) : Prop :=
  (∀ k, k < ylen → testAt Char.isDigit t (i + k) = true) ∧
    testAt isSepChar t (i + ylen) = true ∧
    (∀ k, k < 2 → testAt Char.isDigit t (i + ylen + 1 + k) = true) ∧
    testAt isSepChar t (i + ylen + 3) = true ∧
    (∀ k, k < 2 → testAt Char.isDigit t (i + ylen + 4 + k) = true)

instance (t : List Char) (i ylen : Nat) : Decidable (DateAt t i ylen) := by
  unfold DateAt; infer_instance

/-- Some date form (4- or 3-digit year) matches at `i`. -/
def AnyDateAt (t : List Char) (i : Nat) : Prop := DateAt t i 4 ∨ DateAt t i 3

instance (t : List Char) (i : Nat) : Decidable (AnyDateAt t i) := by
  unfold AnyDateAt; infer_instance

/-! ## Invoice number: regex `([A-Z]{2})[- ]?(\d{8})` (source lines 46–47)

`[- ]?` is greedy: consuming one `-`/space is tried first.  The
separator form and the direct form cannot both succeed at one position
(the third character cannot be both a separator and a digit), so the
per-position matcher is a plain if-then-else. -/

def isInvSep (c : Char) : Bool := c == '-' || c == ' '

def invSepOk (t : List Char) (i : Nat) : Bool :=
  allAt isUpperAZ t i 2 && testAt isInvSep t (i + 2) && allAt Char.isDigit t (i + 3) 8

def invDirOk (t : List Char) (i : Nat) : Bool :=
  allAt isUpperAZ t i 2 && allAt Char.isDigit t (i + 2) 8

def invMatchAt (t : List Char) (i : Nat) : Option (List Char) :=
  if invSepOk t i then some (slice t i 2 ++ slice t (i + 3) 8)
  else if invDirOk t i then some (slice t i 2 ++ slice t (i + 2) 8)
  else none

/-- `inv_number`: `group(1) + group(2)` of the first match, else `""`. -/
def inv_number (t : List Char) : String :=
  match reSearch (invMatchAt t) t.length with
  | some g => String.mk g
  | none => ""

/-- Declarative separator form: 2 uppercase letters, one `-`/space, 8 digits. -/
def InvSepAt (t : List Char) (i : Nat) : Prop :=
  (∀ k, k < 2 → testAt isUpperAZ t (i + k) = true) ∧
    testAt isInvSep t (i + 2) = true ∧
    (∀ k, k < 8 → testAt Char.isDigit t (i + 3 + k) = true)

/-- Declarative direct form: 2 uppercase letters immediately followed by 8 digits. -/
def InvDirAt (t : List Char) (i : Nat) : Prop :=
  (∀ k, k < 2 → testAt isUpperAZ t (i + k) = true) ∧
    (∀ k, k < 8 → testAt Char.isDigit t (i + 2 + k) = true)

instance (t : List Char) (i : Nat) : Decidable (InvSepAt t i) := by
  unfold InvSepAt; infer_instance

instance (t : List Char) (i : Nat) : Decidable (InvDirAt t i) := by
  unfold InvDirAt; infer_instance

def InvAt (t : List Char) (i : Nat) : Prop := InvSepAt t i ∨ InvDirAt t i

instance (t : List Char) (i : Nat) : Decidable (InvAt t i) := by
  unfold InvAt; infer_instance

/-! ## Fuel item: regex `95.*?\s?(\d+\.\d{3})` (source lines 51–53)

Semantics of a match starting at `i`: literal `95`, then the non-greedy
`.*?` skips `k = 0, 1, 2, …` characters (each of which must not be a
newline, since `.` does not match `\n`), then the greedy `\s?` consumes
one whitespace character if the tail matches that way, and finally the
group `\d+\.\d{3}`.  Inside the group `\d+` is greedy, and since any
shorter digit run is followed by a digit (not by `.`), the only run the
engine can use is the maximal one — so the group is determined without
search.  The engine prefers the smallest start `i`, then the smallest
skip `k`. -/

def numOk (t : List Char) (j : Nat) : Bool :=
  decide (1 ≤ drl t j) && (charAt t (j + drl t j) == some '.') &&
    allAt Char.isDigit t (j + drl t j + 1) 3

/-- The group `\d+\.\d{3}` captured at `j`: maximal digit run, the dot,
and three digits. -/
def numGroup (t : List Char) (j : Nat) : List Char :=
  slice t j (drl t j + 4)

def numMatchAt (t : List Char) (j : Nat) : Option (List Char) :=
  if numOk t j then some (numGroup t j) else none

/-- `\s?(\d+\.\d{3})` at `j`, with `\s?` greedy. -/
def fuelTailAt (t : List Char) (j : Nat) : Option (List Char) :=
  if testAt isSpaceChar t j then
    match numMatchAt t (j + 1) with
    | some g => some g
    | none => numMatchAt t j
  else numMatchAt t j

/-- `.*?` expansion: try the tail after skipping `0, 1, 2, …` non-newline
characters. -/
def fuelDotStar (t : List Char) : Nat → Nat → Option (List Char)
  | _, 0 => none
  | j, fuel + 1 =>
    match fuelTailAt t j with
    | some g => some g
    | none =>
      if testAt (fun c => c != '\n') t j then fuelDotStar t (j + 1) fuel
      else none

def fuelMatchAt (t : List Char) (i : Nat) : Option (List Char) :=
  if charAt t i == some '9' && charAt t (i + 1) == some '5' then
    fuelDotStar t (i + 2) (t.length + 1)
  else none

/-- The liter group: first fuel match, defaulting to `"00.000"`
(source line 52). -/
def litersOf (t : List Char) : List Char :=
  match reSearch (fuelMatchAt t) t.length with
  | some g => g
  | none => "00.000".data

/-- `item_desc = f"95汽油 {liters} L"` (source line 53). -/
def item_desc (t : List Char) : String :=
  "95汽油 " ++ String.mk (litersOf t) ++ " L"

/-- Declarative form of the captured group `\d+\.\d{3}` at `j`. -/
def NumAt (t : List Char) (j : Nat) : Prop :=
  1 ≤ drl t j ∧ charAt t (j + drl t j) = some '.' ∧
    (∀ k, k < 3 → testAt Char.isDigit t (j + drl t j + 1 + k) = true)

instance (t : List Char) (j : Nat) : Decidable (NumAt t j) := by
  unfold NumAt; infer_instance

/-- Declarative form of `\s?(\d+\.\d{3})` at `j`. -/
def TailAt (t : List Char) (j : Nat) : Prop :=
  (testAt isSpaceChar t j = true ∧ NumAt t (j + 1)) ∨ NumAt t j

instance (t : List Char) (j : Nat) : Decidable (TailAt t j) := by
  unfold TailAt; infer_instance

/-- The group produced by the tail at `j` (the `\s?` branch is greedy). -/
def tailGroup (t : List Char) (j : Nat) : List Char :=
  if testAt isSpaceChar t j && numOk t (j + 1) then numGroup t (j + 1)
  else numGroup t j

/-- All `k` skipped characters exist and are not newlines. -/
def SkipOk (t : List Char) (j k : Nat) : Prop :=
  ∀ m, m < k → testAt (fun c => c != '\n') t (j + m) = true

instance (t : List Char) (j k : Nat) : Decidable (SkipOk t j k) := by
  unfold SkipOk; infer_instance

/-- Declarative form of a whole-pattern match starting at `i` with skip `k`. -/
def FuelAt (t : List Char) (i k : Nat) : Prop :=
  charAt t i = some '9' ∧ charAt t (i + 1) = some '5' ∧
    SkipOk t (i + 2) k ∧ TailAt t (i + 2 + k)

instance (t : List Char) (i k : Nat) : Decidable (FuelAt t i k) := by
  unfold FuelAt; infer_instance

/-! ## Sales and tax amounts: regexes `(銷售額|Amount)[: ]*(\d+)` and
`(稅額|Tax)[: ]*(\d+)` (source lines 57–61)

At one start position the alternation tries its first branch, then the
second.  `[: ]*` is greedy; if no digit follows the maximal run of `:`
and spaces, backtracking the run cannot help (a shorter run ends on `:`
or a space, not a digit), so the group `(\d+)` is the maximal digit run
right after the maximal separator run.  The keyword pair of either
regex cannot match at the same position (their first characters
differ), so the per-position matcher is a plain if-then-else. -/

def isKwSep (c : Char) : Bool := c == ':' || c == ' '

/-- Length of the maximal `[: ]*` run at `j`. -/
def sepRun (t : List Char) (j : Nat) : Nat :=
  ((t.drop j).takeWhile isKwSep).length

/-- Start of the digit group after keyword `w` matched at `i`. -/
def amtStart (w t : List Char) (i : Nat) : Nat :=
  i + w.length + sepRun t (i + w.length)

def amtOkFor (w t : List Char) (i : Nat) : Bool :=
  slice t i w.length == w && testAt Char.isDigit t (amtStart w t i)

def amtGroupFor (w t : List Char) (i : Nat) : List Char :=
  slice t (amtStart w t i) (drl t (amtStart w t i))

def amtMatchAt (w1 w2 t : List Char) (i : Nat) : Option (List Char) :=
  if amtOkFor w1 t i then some (amtGroupFor w1 t i)
  else if amtOkFor w2 t i then some (amtGroupFor w2 t i)
  else none

def amtStr (w1 w2 t : List Char) : String :=
  match reSearch (amtMatchAt w1 w2 t) t.length with
  | some g => String.mk g
  | none => ""

def salesKw1 : List Char := "銷售額".data

def salesKw2 : List Char := "Amount".data

def taxKw1 : List Char := "稅額".data

def taxKw2 : List Char := "Tax".data

/-- `sales_amt`: group 2 of the first sales-amount match, else `""`. -/
def sales_amt (t : List Char) : String := amtStr salesKw1 salesKw2 t

/-- `tax_amt`: group 2 of the first tax-amount match, else `""`. -/
def tax_amt (t : List Char) : String := amtStr taxKw1 taxKw2 t

/-- Declarative form: keyword `w` matches literally at `i` and a digit
follows the separator run. -/
def AmtOkP (w t : List Char) (i : Nat) : Prop :=
  slice t i w.length = w ∧ testAt Char.isDigit t (amtStart w t i) = true

instance (w t : List Char) (i : Nat) : Decidable (AmtOkP w t i) := by
  unfold AmtOkP; infer_instance

def AmtAt (w1 w2 t : List Char) (i : Nat) : Prop := AmtOkP w1 t i ∨ AmtOkP w2 t i

instance (w1 w2 t : List Char) (i : Nat) : Decidable (AmtAt w1 w2 t i) := by
  unfold AmtAt; infer_instance

/-! ## The extracted record (source lines 63–70)

`extract_info` returns a dict with six fixed keys (in insertion order):
賣方統編, 發票日期, 發票號碼, 項目, 憑證金額, 原幣稅額.  The structure
fields below carry the spec's English names for those keys, in the same
order. -/

structure Record where
  sellerId : String
  invoiceDate : String
  invoiceNumber : String
  itemDescription : String
  salesAmount : String
  taxAmount : String
  deriving DecidableEq, Repr

/-- The pure extraction function on the flattened OCR text
(source lines 30–70; OCR and image handling are external). -/
def extract_info (t : List Char) : Record :=
  { sellerId := seller_id t
    invoiceDate := date_str t
    invoiceNumber := inv_number t
    itemDescription := item_desc t
    salesAmount := sales_amt t
    taxAmount := tax_amt t }

/-! ## The record store (source lines 21–24, 91–93, 100–103, 106–116, 118–120)

The store is a pandas DataFrame in `st.session_state.df`.  A DataFrame
is modelled as its column names plus its rows of cell strings. -/

structure DataFrame where
  cols : List String
  rows : List (List String)
  deriving DecidableEq, Repr

/-- The fixed six-column schema (source lines 22–24 and 119). -/
def schemaCols : List String :=
  ["賣方統編", "發票日期", "發票號碼", "項目", "憑證金額", "原幣稅額"]

/-- Initial store: `pd.DataFrame(columns=[...])` (source lines 21–24). -/
def initDF : DataFrame := ⟨schemaCols, []⟩

/-- A record's cells in schema order (the dict's values in key order). -/
def toRow (r : Record) : List String :=
  [r.sellerId, r.invoiceDate, r.invoiceNumber, r.itemDescription,
    r.salesAmount, r.taxAmount]

/-- `pd.DataFrame([data])`: a one-row frame whose columns are the dict
keys in order (source line 92). -/
def recordDF (r : Record) : DataFrame := ⟨schemaCols, [toRow r]⟩

/-- Cell of `row` (laid out by `cols`) under column name `c`; missing
columns read as pandas `NaN`. -/
def lookupCell (cols row : List String) (c : String) : String :=
  match cols.indexOf? c with
  | some k => row.getD k "NaN"
  | none => "NaN"

/-- `pd.concat([d1, d2], ignore_index=True)`: aligns by column name.
When the column lists coincide — the only case the app exercises — this
is row concatenation; otherwise columns are unioned (first frame's
order first) and missing cells become `NaN`. -/
def pdConcat (d1 d2 : DataFrame) : DataFrame :=
  if d1.cols = d2.cols then ⟨d1.cols, d1.rows ++ d2.rows⟩
  else
    let cols := d1.cols ++ d2.cols.filter (fun c => !d1.cols.contains c)
    ⟨cols,
      d1.rows.map (fun row => cols.map (lookupCell d1.cols row)) ++
        d2.rows.map (fun row => cols.map (lookupCell d2.cols row))⟩

/-- The `確認加入表格` button handler (source lines 91–93):
`st.session_state.df = pd.concat([st.session_state.df, pd.DataFrame([data])],
ignore_index=True)`. -/
def appendRecord (df : DataFrame) (r : Record) : DataFrame :=
  pdConcat df (recordDF r)

/-- The `清空所有紀錄` button handler (source lines 118–120): replace the
store with a fresh empty six-column frame. -/
def clearDF (_ : DataFrame) : DataFrame := ⟨schemaCols, []⟩

/-- pandas `df.empty`: with the six columns always present this is
exactly "no rows". -/
def dfEmpty (df : DataFrame) : Bool := df.rows.isEmpty

/-- Modelled from the spec: spreadsheet serialization
(`pd.ExcelWriter` / `to_excel`, source lines 106–116) is an out-of-scope
external collaborator ("treated as an opaque function: tabular data →
byte stream").  At the "byte-level spreadsheet structure aside" level of
the spec's round-trip property, the sheet handed over is its name plus
a grid of cells: the header row (`index=False` drops the index) followed
by the data rows. -/
structure Sheet where
  name : String
  cells : List (List String)
  deriving DecidableEq, Repr

/-- `df.to_excel(writer, index=False, sheet_name='發票紀錄')`
(source line 109), at the cell-grid level. -/
def exportSheet (df : DataFrame) : Sheet :=
  ⟨"發票紀錄", df.cols :: df.rows⟩

/-- Modelled from the spec: reading the exported sheet back as a table —
first cell row is the header, the rest are the data rows. -/
def readSheet (s : Sheet) : DataFrame :=
  match s.cells with
  | [] => ⟨[], []⟩
  | c :: rs => ⟨c, rs⟩

/-- The store states reachable in one session: initialization, the
append handler, interactive edits through `st.data_editor` (which can
change cell values and add or remove rows but never the columns,
source lines 100–103), and the clear handler. -/
inductive Reachable : DataFrame → Prop where
  | init : Reachable initDF
  | append (df : DataFrame) (r : Record) (h : Reachable df) :
      Reachable (appendRecord df r)
  | edit (df : DataFrame) (rows : List (List String)) (h : Reachable df) :
      Reachable ⟨df.cols, rows⟩
  | clear (df : DataFrame) (h : Reachable df) : Reachable (clearDF df)

/-! ## Definitions following the claims' words (for comparison)

Two claims describe the code's behaviour in words that differ from the
regexes; the definitions below follow the claims' words so the
difference can be exhibited on concrete inputs. -/

/-- Claim C1's words: a run of exactly 8 digits "bounded by non-digit
boundaries" — the adjacent characters, when present, are merely
non-digits (rather than non-word characters as `\b` demands). -/
def claimSellerOk (t : List Char) (i : Nat) : Bool :=
  (i == 0 || !testAt Char.isDigit t (i - 1)) &&
    allAt Char.isDigit t i 8 && !testAt Char.isDigit t (i + 8)

/-- Claim C1's words: the first such digit run, else `""`. -/
def claimSellerId (t : List Char) : String :=
  match reSearch
      (fun i => if claimSellerOk t i then some (slice t i 8) else none)
      t.length with
  | some g => String.mk g
  | none => ""

/-- Claim C4's words: a decimal number with exactly 3 fractional digits
(maximal fraction of exactly 3 digits) starting at `j`. -/
def claimNumOk (t : List Char) (j : Nat) : Bool :=
  decide (1 ≤ drl t j) && (charAt t (j + drl t j) == some '.') &&
    allAt Char.isDigit t (j + drl t j + 1) 3 &&
    !testAt Char.isDigit t (j + drl t j + 4)

/-- Claim C4's words: the first such number found after the first
literal token `95`, across arbitrary intervening characters. -/
def claimFuelLiters (t : List Char) : Option (List Char) :=
  match reSearch
      (fun i => if charAt t i == some '9' && charAt t (i + 1) == some '5'
        then some i else none)
      t.length with
  | some p =>
    scanFrom
      (fun j => if claimNumOk t j then some (slice t j (drl t j + 4)) else none)
      (p + 2) (t.length + 1)
  | none => none

/-! ## Proofs -/

theorem scanFrom_eq_none_iff {α : Type} (f : Nat → Option α) :
    ∀ (fuel i : Nat), scanFrom f i fuel = none ↔
      ∀ k, i ≤ k → k < i + fuel → f k = none := by
  intro fuel
  induction fuel with
  | zero =>
    intro i
    simp only [scanFrom]
    constructor
    · intro _ k h1 h2; omega
    · intro _; trivial
  | succ n ih =>
    intro i
    cases hfi : f i with
    | some a =>
      simp only [scanFrom, hfi]
      constructor
      · intro h; exact absurd h (by simp)
      · intro h
        have := h i (Nat.le_refl i) (by omega)
        rw [this] at hfi; exact absurd hfi (by simp)
    | none =>
      simp only [scanFrom, hfi]
      rw [ih (i + 1)]
      constructor
      · intro h k h1 h2
        rcases Nat.eq_or_lt_of_le h1 with h1 | h1
        · rw [← h1]; exact hfi
        · exact h k h1 (by omega)
      · intro h k h1 h2
        exact h k (by omega) (by omega)

theorem scanFrom_eq_some_iff {α : Type} (f : Nat → Option α) :
    ∀ (fuel i : Nat) (a : α), scanFrom f i fuel = some a ↔
      ∃ j, i ≤ j ∧ j < i + fuel ∧ f j = some a ∧
        ∀ k, i ≤ k → k < j → f k = none := by
  intro fuel
  induction fuel with
  | zero =>
    intro i a
    simp only [scanFrom]
    constructor
    · intro h; exact absurd h (by simp)
    · rintro ⟨j, h1, h2, _⟩; omega
  | succ n ih =>
    intro i a
    cases hfi : f i with
    | some b =>
      simp only [scanFrom, hfi]
      constructor
      · intro h
        refine ⟨i, Nat.le_refl i, by omega, ?_, ?_⟩
        · rw [← h]; exact hfi
        · intro k h1 h2; omega
      · rintro ⟨j, h1, _, h3, h4⟩
        rcases Nat.eq_or_lt_of_le h1 with h1 | h1
        · rw [← h1] at h3; rw [hfi] at h3; exact h3
        · have := h4 i (Nat.le_refl i) h1
          rw [this] at hfi; exact absurd hfi (by simp)
    | none =>
      simp only [scanFrom, hfi]
      rw [ih (i + 1)]
      constructor
      · rintro ⟨j, h1, h2, h3, h4⟩
        refine ⟨j, by omega, by omega, h3, ?_⟩
        intro k hk1 hk2
        rcases Nat.eq_or_lt_of_le hk1 with hk1 | hk1
        · rw [← hk1]; exact hfi
        · exact h4 k hk1 hk2
      · rintro ⟨j, h1, h2, h3, h4⟩
        have hji : i ≠ j := by
          intro h; rw [← h] at h3; rw [hfi] at h3; exact absurd h3 (by simp)
        refine ⟨j, by omega, by omega, h3, ?_⟩
        intro k hk1 hk2
        exact h4 k (by omega) hk2

/-- The two facts claims need about `reSearch`, given that the matcher
cannot fire at or past position `n`. -/
theorem reSearch_characterization {α : Type} (f : Nat → Option α) (n : Nat)
    (hb : ∀ k, n ≤ k → f k = none) :
    (reSearch f n = none ↔ ∀ k, f k = none) ∧
    (∀ j a, f j = some a → (∀ k, k < j → f k = none) → reSearch f n = some a) := by
  constructor
  · rw [reSearch, scanFrom_eq_none_iff]
    constructor
    · intro h k
      by_cases hk : k < n + 1
      · exact h k (Nat.zero_le k) (by omega)
      · exact hb k (by omega)
    · intro h k _ _; exact h k
  · intro j a hj hmin
    rw [reSearch, scanFrom_eq_some_iff]
    have hjn : j < n := by
      by_contra hc
      rw [hb j (by omega)] at hj
      exact absurd hj (by simp)
    exact ⟨j, Nat.zero_le j, by omega, hj, fun k _ hk => hmin k hk⟩

/-! ## Generic facts about the primitives -/

theorem testAt_true_lt {p : Char → Bool} {t : List Char} {i : Nat}
    (h : testAt p t i = true) : i < t.length := by
  unfold testAt charAt at h
  cases hg : t[i]? with
  | none => rw [hg] at h; exact absurd h (by simp)
  | some c => exact (List.getElem?_eq_some.mp hg).1

theorem charAt_some_lt {t : List Char} {i : Nat} {c : Char}
    (h : charAt t i = some c) : i < t.length :=
  (List.getElem?_eq_some.mp h).1

theorem allAt_eq_true_iff {p : Char → Bool} {t : List Char} {i n : Nat} :
    allAt p t i n = true ↔ ∀ k, k < n → testAt p t (i + k) = true := by
  unfold allAt
  rw [List.all_eq_true]
  constructor
  · intro h k hk; exact h k (List.mem_range.mpr hk)
  · intro h k hk; exact h k (List.mem_range.mp hk)

theorem slice_length {t : List Char} {i n : Nat} (h : i + n ≤ t.length) :
    (slice t i n).length = n := by
  unfold slice
  rw [List.length_take, List.length_drop]
  omega

theorem String_mk_ne_empty {l : List Char} (h : l ≠ []) : String.mk l ≠ "" := by
  intro hc
  have : l = [] := congrArg String.data hc
  exact h this

theorem slice_cons_charAt {t : List Char} {i n : Nat} {c : Char} {r : List Char}
    (h : slice t i n = c :: r) : charAt t i = some c := by
  unfold slice at h
  unfold charAt
  have h0 : (t.drop i)[0]? = some c := by
    cases ht : t.drop i with
    | nil => rw [ht] at h; simp at h
    | cons a l =>
      rw [ht] at h
      cases n with
      | zero => simp at h
      | succ m =>
        simp only [List.take_succ_cons] at h
        rw [List.getElem?_cons_zero]
        exact congrArg some (List.cons.injEq .. ▸ h).1 ▸ rfl
  have h1 : (t.drop i)[0]? = t[i]? := by rw [List.getElem?_drop, Nat.add_zero]
  rw [← h1]
  exact h0

theorem sellerOk_iff {t : List Char} {i : Nat} :
    sellerOk t i = true ↔ SellerRunAt t i := by
  unfold sellerOk SellerRunAt
  rw [Bool.and_eq_true, Bool.and_eq_true, Bool.or_eq_true, allAt_eq_true_iff]
  simp [and_assoc]

theorem sellerMatchAt_eq_some_iff {t : List Char} {i : Nat} {g : List Char} :
    sellerMatchAt t i = some g ↔ SellerRunAt t i ∧ g = slice t i 8 := by
  unfold sellerMatchAt
  split
  · rename_i h
    rw [sellerOk_iff] at h
    simp [h, eq_comm]
  · rename_i h
    constructor
    · intro hc; exact absurd hc (by simp)
    · rintro ⟨h1, _⟩
      exact absurd (sellerOk_iff.mpr h1) h

theorem sellerMatchAt_eq_none_iff {t : List Char} {i : Nat} :
    sellerMatchAt t i = none ↔ ¬ SellerRunAt t i := by
  unfold sellerMatchAt
  split
  · rename_i h
    rw [sellerOk_iff] at h
    simp [h]
  · rename_i h
    constructor
    · intro _ hc; exact absurd (sellerOk_iff.mpr hc) h
    · intro _; rfl

theorem SellerRunAt_lt {t : List Char} {i : Nat} (h : SellerRunAt t i) :
    i < t.length := by
  have := h.2.1 0 (by omega)
  exact testAt_true_lt (by simpa using this)

/-- Leftmost-match characterization of `seller_id`. -/
theorem seller_id_char (t : List Char) :
    (seller_id t = "" ↔ ∀ i, ¬ SellerRunAt t i) ∧
    (∀ i, SellerRunAt t i → (∀ j, j < i → ¬ SellerRunAt t j) →
      seller_id t = String.mk (slice t i 8)) := by
  have hb : ∀ k, t.length ≤ k → sellerMatchAt t k = none := by
    intro k hk
    rw [sellerMatchAt_eq_none_iff]
    intro hc
    exact absurd (SellerRunAt_lt hc) (by omega)
  have hc := reSearch_characterization (sellerMatchAt t) t.length hb
  constructor
  · constructor
    · intro h i
      cases hs : reSearch (sellerMatchAt t) t.length with
      | none =>
        rw [← sellerMatchAt_eq_none_iff]
        exact (hc.1.mp hs) i
      | some g =>
        exfalso
        unfold seller_id at h
        rw [hs] at h
        obtain ⟨j, _, _, hj, _⟩ := (scanFrom_eq_some_iff (sellerMatchAt t) (t.length + 1) 0 g).mp hs
        obtain ⟨hrun, hg⟩ := sellerMatchAt_eq_some_iff.mp hj
        have hlen : (slice t j 8).length = 8 := by
          apply slice_length
          have := testAt_true_lt (hrun.2.1 7 (by omega))
          omega
        have : g ≠ [] := by
          rw [hg]; intro hnil; rw [hnil] at hlen; simp at hlen
        exact String_mk_ne_empty this h
    · intro h
      unfold seller_id
      have : reSearch (sellerMatchAt t) t.length = none := by
        rw [hc.1]
        intro k
        rw [sellerMatchAt_eq_none_iff]
        exact h k
      rw [this]
  · intro i hrun hmin
    unfold seller_id
    have : reSearch (sellerMatchAt t) t.length = some (slice t i 8) := by
      apply hc.2 i
      · rw [sellerMatchAt_eq_some_iff]; exact ⟨hrun, rfl⟩
      · intro k hk
        rw [sellerMatchAt_eq_none_iff]
        exact hmin k hk
    rw [this]

theorem dateOk_iff {t : List Char} {i ylen : Nat} :
    dateOk t i ylen = true ↔ DateAt t i ylen := by
  unfold dateOk DateAt
  rw [Bool.and_eq_true, Bool.and_eq_true, Bool.and_eq_true, Bool.and_eq_true,
    allAt_eq_true_iff, allAt_eq_true_iff, allAt_eq_true_iff]
  tauto

theorem isSepChar_not_digit {c : Char} (h : isSepChar c = true) :
    c.isDigit = false := by
  unfold isSepChar at h
  simp only [Bool.or_eq_true, decide_eq_true_eq] at h
  rcases h with (h | h) | h <;> subst h <;> rfl

theorem testAt_some {p : Char → Bool} {t : List Char} {i : Nat} {c : Char}
    (hg : charAt t i = some c) : testAt p t i = p c := by
  unfold testAt
  rw [hg]

theorem testAt_none {p : Char → Bool} {t : List Char} {i : Nat}
    (hg : charAt t i = none) : testAt p t i = false := by
  unfold testAt
  rw [hg]

theorem DateAt_not_both {t : List Char} {i : Nat}
    (h4 : DateAt t i 4) (h3 : DateAt t i 3) : False := by
  have hd : testAt Char.isDigit t (i + 3) = true := h4.1 3 (by omega)
  have hs : testAt isSepChar t (i + 3) = true := h3.2.1
  cases hg : charAt t (i + 3) with
  | none => rw [testAt_none hg] at hd; exact absurd hd (by simp)
  | some c =>
    rw [testAt_some hg] at hd hs
    rw [isSepChar_not_digit hs] at hd
    exact absurd hd (by simp)

theorem AnyDateAt_lt {t : List Char} {i : Nat} (h : AnyDateAt t i) :
    i < t.length := by
  rcases h with h | h <;>
    · have := h.1 0 (by omega)
      exact testAt_true_lt (by simpa using this)

theorem dateMatchAt_eq_none_iff {t : List Char} {i : Nat} :
    dateMatchAt t i = none ↔ ¬ AnyDateAt t i := by
  unfold dateMatchAt
  split
  · rename_i h
    rw [dateOk_iff] at h
    constructor
    · intro hc; exact absurd hc (by simp)
    · intro hc; exact absurd (Or.inl h) hc
  · rename_i h4
    split
    · rename_i h3
      rw [dateOk_iff] at h3
      constructor
      · intro hc; exact absurd hc (by simp)
      · intro hc; exact absurd (Or.inr h3) hc
    · rename_i h3
      constructor
      · intro _ hc
        rcases hc with hc | hc
        · exact absurd (dateOk_iff.mpr hc) h4
        · exact absurd (dateOk_iff.mpr hc) h3
      · intro _; rfl

/-- Leftmost-match characterization of `date_str`: empty iff no match
anywhere; at the leftmost matching position the (unique) matching year
width determines the groups. -/
theorem date_str_char (t : List Char) :
    (date_str t = "" ↔ ∀ i, ¬ AnyDateAt t i) ∧
    (∀ i, AnyDateAt t i → (∀ j, j < i → ¬ AnyDateAt t j) →
      (DateAt t i 4 →
        date_str t = dateFormat (slice t i 4) (slice t (i + 5) 2) (slice t (i + 8) 2)) ∧
      (DateAt t i 3 →
        date_str t = dateFormat (slice t i 3) (slice t (i + 4) 2) (slice t (i + 7) 2))) := by
  have hb : ∀ k, t.length ≤ k → dateMatchAt t k = none := by
    intro k hk
    rw [dateMatchAt_eq_none_iff]
    intro hc
    exact absurd (AnyDateAt_lt hc) (by omega)
  have hc := reSearch_characterization (dateMatchAt t) t.length hb
  have hfmt_ne : ∀ y m d, dateFormat y m d ≠ "" := by
    intro y m d hcon
    have h2 : (dateFormat y m d).data = [] := congrArg String.data hcon
    unfold dateFormat at h2
    simp at h2
  constructor
  · constructor
    · intro h i
      cases hs : reSearch (dateMatchAt t) t.length with
      | none =>
        rw [← dateMatchAt_eq_none_iff]
        exact (hc.1.mp hs) i
      | some g =>
        exfalso
        unfold date_str at h
        rw [hs] at h
        obtain ⟨y, m, d⟩ := g
        exact hfmt_ne y m d h
    · intro h
      unfold date_str
      have : reSearch (dateMatchAt t) t.length = none := by
        rw [hc.1]
        intro k
        rw [dateMatchAt_eq_none_iff]
        exact h k
      rw [this]
  · intro i hany hmin
    have hnone : ∀ k, k < i → dateMatchAt t k = none := by
      intro k hk
      rw [dateMatchAt_eq_none_iff]
      exact hmin k hk
    constructor
    · intro h4
      have hsome : dateMatchAt t i =
          some (slice t i 4, slice t (i + 5) 2, slice t (i + 8) 2) := by
        unfold dateMatchAt
        rw [if_pos (dateOk_iff.mpr h4)]
      unfold date_str
      rw [hc.2 i _ hsome hnone]
    · intro h3
      have hn4 : ¬ DateAt t i 4 := fun h4 => DateAt_not_both h4 h3
      have hsome : dateMatchAt t i =
          some (slice t i 3, slice t (i + 4) 2, slice t (i + 7) 2) := by
        unfold dateMatchAt
        rw [if_neg (fun hok => hn4 (dateOk_iff.mp hok)), if_pos (dateOk_iff.mpr h3)]
      unfold date_str
      rw [hc.2 i _ hsome hnone]

theorem invSepOk_iff {t : List Char} {i : Nat} :
    invSepOk t i = true ↔ InvSepAt t i := by
  unfold invSepOk InvSepAt
  rw [Bool.and_eq_true, Bool.and_eq_true, allAt_eq_true_iff, allAt_eq_true_iff]
  tauto

theorem invDirOk_iff {t : List Char} {i : Nat} :
    invDirOk t i = true ↔ InvDirAt t i := by
  unfold invDirOk InvDirAt
  rw [Bool.and_eq_true, allAt_eq_true_iff, allAt_eq_true_iff]

theorem isInvSep_not_digit {c : Char} (h : isInvSep c = true) :
    c.isDigit = false := by
  unfold isInvSep at h
  simp only [Bool.or_eq_true, beq_iff_eq] at h
  rcases h with h | h <;> subst h <;> rfl

theorem InvAt_not_both {t : List Char} {i : Nat}
    (hs : InvSepAt t i) (hd : InvDirAt t i) : False := by
  have h1 : testAt isInvSep t (i + 2) = true := hs.2.1
  have h2 : testAt Char.isDigit t (i + 2) = true := by
    have := hd.2 0 (by omega)
    simpa using this
  cases hg : charAt t (i + 2) with
  | none => rw [testAt_none hg] at h1; exact absurd h1 (by simp)
  | some c =>
    rw [testAt_some hg] at h1 h2
    rw [isInvSep_not_digit h1] at h2
    exact absurd h2 (by simp)

theorem InvAt_lt {t : List Char} {i : Nat} (h : InvAt t i) : i < t.length := by
  rcases h with h | h <;>
    · have := h.1 0 (by omega)
      exact testAt_true_lt (by simpa using this)

theorem invMatchAt_eq_none_iff {t : List Char} {i : Nat} :
    invMatchAt t i = none ↔ ¬ InvAt t i := by
  unfold invMatchAt
  split
  · rename_i h
    rw [invSepOk_iff] at h
    constructor
    · intro hc; exact absurd hc (by simp)
    · intro hc; exact absurd (Or.inl h) hc
  · rename_i hs
    split
    · rename_i h
      rw [invDirOk_iff] at h
      constructor
      · intro hc; exact absurd hc (by simp)
      · intro hc; exact absurd (Or.inr h) hc
    · rename_i hd
      constructor
      · intro _ hc
        rcases hc with hc | hc
        · exact absurd (invSepOk_iff.mpr hc) hs
        · exact absurd (invDirOk_iff.mpr hc) hd
      · intro _; rfl

/-- Leftmost-match characterization of `inv_number`. -/
theorem inv_number_char (t : List Char) :
    (inv_number t = "" ↔ ∀ i, ¬ InvAt t i) ∧
    (∀ i, (∀ j, j < i → ¬ InvAt t j) →
      (InvSepAt t i → inv_number t = String.mk (slice t i 2 ++ slice t (i + 3) 8)) ∧
      (InvDirAt t i → inv_number t = String.mk (slice t i 2 ++ slice t (i + 2) 8))) := by
  have hb : ∀ k, t.length ≤ k → invMatchAt t k = none := by
    intro k hk
    rw [invMatchAt_eq_none_iff]
    intro hcon
    exact absurd (InvAt_lt hcon) (by omega)
  have hc := reSearch_characterization (invMatchAt t) t.length hb
  constructor
  · constructor
    · intro h i
      cases hsr : reSearch (invMatchAt t) t.length with
      | none =>
        rw [← invMatchAt_eq_none_iff]
        exact (hc.1.mp hsr) i
      | some g =>
        exfalso
        unfold inv_number at h
        rw [hsr] at h
        obtain ⟨j, _, _, hj, _⟩ :=
          (scanFrom_eq_some_iff (invMatchAt t) (t.length + 1) 0 g).mp hsr
        have hg_ne : g ≠ [] := by
          unfold invMatchAt at hj
          have hpre : ∀ m, (∀ k, k < 2 → testAt isUpperAZ t (j + k) = true) →
              g = slice t j 2 ++ m → g ≠ [] := by
            intro m hup hg hnil
            have h2 : (slice t j 2).length = 2 := by
              apply slice_length
              have := testAt_true_lt (hup 1 (by omega))
              omega
            rw [hg] at hnil
            rw [List.append_eq_nil] at hnil
            rw [hnil.1] at h2
            simp at h2
          split at hj
          · rename_i hok
            rw [invSepOk_iff] at hok
            injection hj with hg
            exact hpre _ hok.1 hg.symm
          · split at hj
            · rename_i hok
              rw [invDirOk_iff] at hok
              injection hj with hg
              exact hpre _ hok.1 hg.symm
            · exact absurd hj (by simp)
        exact String_mk_ne_empty hg_ne h
    · intro h
      unfold inv_number
      have : reSearch (invMatchAt t) t.length = none := by
        rw [hc.1]
        intro k
        rw [invMatchAt_eq_none_iff]
        exact h k
      rw [this]
  · intro i hmin
    have hnone : ∀ k, k < i → invMatchAt t k = none := by
      intro k hk
      rw [invMatchAt_eq_none_iff]
      exact hmin k hk
    constructor
    · intro hsep
      have hsome : invMatchAt t i = some (slice t i 2 ++ slice t (i + 3) 8) := by
        unfold invMatchAt
        rw [if_pos (invSepOk_iff.mpr hsep)]
      unfold inv_number
      rw [hc.2 i _ hsome hnone]
    · intro hdir
      have hns : ¬ InvSepAt t i := fun hsep => InvAt_not_both hsep hdir
      have hsome : invMatchAt t i = some (slice t i 2 ++ slice t (i + 2) 8) := by
        unfold invMatchAt
        rw [if_neg (fun hok => hns (invSepOk_iff.mp hok)), if_pos (invDirOk_iff.mpr hdir)]
      unfold inv_number
      rw [hc.2 i _ hsome hnone]

theorem numOk_iff {t : List Char} {j : Nat} : numOk t j = true ↔ NumAt t j := by
  unfold numOk NumAt
  rw [Bool.and_eq_true, Bool.and_eq_true, allAt_eq_true_iff]
  simp [and_assoc]

theorem numMatchAt_eq_some_iff {t : List Char} {j : Nat} {g : List Char} :
    numMatchAt t j = some g ↔ NumAt t j ∧ g = numGroup t j := by
  unfold numMatchAt
  split
  · rename_i h
    rw [numOk_iff] at h
    simp [h, eq_comm]
  · rename_i h
    constructor
    · intro hcon; exact absurd hcon (by simp)
    · rintro ⟨h1, _⟩; exact absurd (numOk_iff.mpr h1) h

theorem numMatchAt_eq_none_iff {t : List Char} {j : Nat} :
    numMatchAt t j = none ↔ ¬ NumAt t j := by
  unfold numMatchAt
  split
  · rename_i h
    rw [numOk_iff] at h
    simp [h]
  · rename_i h
    constructor
    · intro _ hcon; exact absurd (numOk_iff.mpr hcon) h
    · intro _; rfl

theorem fuelTailAt_eq_some_iff {t : List Char} {j : Nat} {g : List Char} :
    fuelTailAt t j = some g ↔ TailAt t j ∧ g = tailGroup t j := by
  by_cases hsp : testAt isSpaceChar t j = true
  · by_cases hnum1 : NumAt t (j + 1)
    · have he : fuelTailAt t j = some (numGroup t (j + 1)) := by
        unfold fuelTailAt
        rw [if_pos hsp, numMatchAt_eq_some_iff.mpr ⟨hnum1, rfl⟩]
      have hgr : tailGroup t j = numGroup t (j + 1) := by
        unfold tailGroup
        rw [hsp, numOk_iff.mpr hnum1]
        simp
      rw [he, hgr]
      constructor
      · intro h
        injection h with h
        exact ⟨Or.inl ⟨hsp, hnum1⟩, h.symm⟩
      · rintro ⟨_, h⟩
        rw [h]
    · have hn : numMatchAt t (j + 1) = none := numMatchAt_eq_none_iff.mpr hnum1
      have he : fuelTailAt t j = numMatchAt t j := by
        unfold fuelTailAt
        rw [if_pos hsp, hn]
      have hok : numOk t (j + 1) = false := by
        cases hh : numOk t (j + 1)
        · rfl
        · exact absurd (numOk_iff.mp hh) hnum1
      have hgr : tailGroup t j = numGroup t j := by
        unfold tailGroup
        rw [hok]
        simp
      rw [he, hgr, numMatchAt_eq_some_iff]
      constructor
      · rintro ⟨hnum, h⟩
        exact ⟨Or.inr hnum, h⟩
      · rintro ⟨htail, h⟩
        rcases htail with ⟨_, hx⟩ | hx
        · exact absurd hx hnum1
        · exact ⟨hx, h⟩
  · have hsp' : testAt isSpaceChar t j = false := by
      cases hh : testAt isSpaceChar t j
      · rfl
      · exact absurd hh hsp
    have he : fuelTailAt t j = numMatchAt t j := by
      unfold fuelTailAt
      rw [if_neg hsp]
    have hgr : tailGroup t j = numGroup t j := by
      unfold tailGroup
      rw [hsp']
      simp
    rw [he, hgr, numMatchAt_eq_some_iff]
    constructor
    · rintro ⟨hnum, h⟩
      exact ⟨Or.inr hnum, h⟩
    · rintro ⟨htail, h⟩
      rcases htail with ⟨hx, _⟩ | hx
      · exact absurd hx hsp
      · exact ⟨hx, h⟩

theorem fuelTailAt_eq_none_iff {t : List Char} {j : Nat} :
    fuelTailAt t j = none ↔ ¬ TailAt t j := by
  constructor
  · intro h htail
    have : fuelTailAt t j = some (tailGroup t j) :=
      fuelTailAt_eq_some_iff.mpr ⟨htail, rfl⟩
    rw [h] at this
    exact absurd this (by simp)
  · intro h
    cases hh : fuelTailAt t j with
    | none => rfl
    | some g =>
      obtain ⟨htail, _⟩ := fuelTailAt_eq_some_iff.mp hh
      exact absurd htail h

theorem TailAt_lt {t : List Char} {j : Nat} (h : TailAt t j) : j < t.length := by
  rcases h with ⟨hsp, _⟩ | hnum
  · exact testAt_true_lt hsp
  · have := charAt_some_lt hnum.2.1
    omega

theorem fuelDotStar_eq_some_iff {t : List Char} :
    ∀ (fuel j : Nat) (g : List Char), fuelDotStar t j fuel = some g ↔
      ∃ k, k < fuel ∧ SkipOk t j k ∧ TailAt t (j + k) ∧
        g = tailGroup t (j + k) ∧ ∀ m, m < k → ¬ TailAt t (j + m) := by
  intro fuel
  induction fuel with
  | zero =>
    intro j g
    simp only [fuelDotStar]
    constructor
    · intro h; exact absurd h (by simp)
    · rintro ⟨k, hk, _⟩; omega
  | succ n ih =>
    intro j g
    cases hft : fuelTailAt t j with
    | some g0 =>
      obtain ⟨htail0, hg0⟩ := fuelTailAt_eq_some_iff.mp hft
      simp only [fuelDotStar, hft]
      constructor
      · intro h
        injection h with h
        refine ⟨0, by omega, fun m hm => absurd hm (by omega), ?_, ?_, ?_⟩
        · rw [Nat.add_zero]; exact htail0
        · rw [Nat.add_zero, ← hg0, h]
        · intro m hm; omega
      · rintro ⟨k, hk, hskip, htail, hg, hmin⟩
        cases k with
        | zero =>
          rw [Nat.add_zero] at hg
          rw [hg, ← hg0]
        | succ k0 =>
          exfalso
          have := hmin 0 (by omega)
          rw [Nat.add_zero] at this
          exact this htail0
    | none =>
      have htn : ¬ TailAt t j := fuelTailAt_eq_none_iff.mp hft
      cases hnl : testAt (fun c => c != '\n') t j with
      | true =>
        simp only [fuelDotStar, hft, hnl, if_true]
        rw [ih (j + 1) g]
        constructor
        · rintro ⟨k, hk, hskip, htail, hg, hmin⟩
          refine ⟨k + 1, by omega, ?_, ?_, ?_, ?_⟩
          · intro m hm
            cases m with
            | zero => rw [Nat.add_zero]; exact hnl
            | succ m0 =>
              have he : j + (m0 + 1) = j + 1 + m0 := by omega
              rw [he]
              exact hskip m0 (by omega)
          · have he : j + (k + 1) = j + 1 + k := by omega
            rw [he]; exact htail
          · have he : j + (k + 1) = j + 1 + k := by omega
            rw [he]; exact hg
          · intro m hm
            cases m with
            | zero => rw [Nat.add_zero]; exact htn
            | succ m0 =>
              have he : j + (m0 + 1) = j + 1 + m0 := by omega
              rw [he]
              exact hmin m0 (by omega)
        · rintro ⟨k, hk, hskip, htail, hg, hmin⟩
          cases k with
          | zero =>
            rw [Nat.add_zero] at htail
            exact absurd htail htn
          | succ k0 =>
            have he : j + (k0 + 1) = j + 1 + k0 := by omega
            rw [he] at htail hg
            refine ⟨k0, by omega, ?_, htail, hg, ?_⟩
            · intro m hm
              have he2 : j + 1 + m = j + (m + 1) := by omega
              rw [he2]
              exact hskip (m + 1) (by omega)
            · intro m hm
              have he2 : j + 1 + m = j + (m + 1) := by omega
              rw [he2]
              exact hmin (m + 1) (by omega)
      | false =>
        simp only [fuelDotStar, hft, hnl]
        constructor
        · intro h; exact absurd h (by simp)
        · rintro ⟨k, hk, hskip, htail, hg, hmin⟩
          cases k with
          | zero =>
            rw [Nat.add_zero] at htail
            exact absurd htail htn
          | succ k0 =>
            have := hskip 0 (by omega)
            rw [Nat.add_zero, hnl] at this
            exact absurd this (by simp)

theorem fuelDotStar_eq_none_iff {t : List Char} :
    ∀ (fuel j : Nat), fuelDotStar t j fuel = none ↔
      ∀ k, k < fuel → SkipOk t j k → ¬ TailAt t (j + k) := by
  intro fuel
  induction fuel with
  | zero =>
    intro j
    simp only [fuelDotStar]
    constructor
    · intro _ k hk; omega
    · intro _; trivial
  | succ n ih =>
    intro j
    cases hft : fuelTailAt t j with
    | some g0 =>
      obtain ⟨htail0, _⟩ := fuelTailAt_eq_some_iff.mp hft
      simp only [fuelDotStar, hft]
      constructor
      · intro h; exact absurd h (by simp)
      · intro h
        exfalso
        have := h 0 (by omega) (fun m hm => absurd hm (by omega))
        rw [Nat.add_zero] at this
        exact this htail0
    | none =>
      have htn : ¬ TailAt t j := fuelTailAt_eq_none_iff.mp hft
      cases hnl : testAt (fun c => c != '\n') t j with
      | true =>
        simp only [fuelDotStar, hft, hnl, if_true]
        rw [ih (j + 1)]
        constructor
        · intro h k hk hskip
          cases k with
          | zero => rw [Nat.add_zero]; exact htn
          | succ k0 =>
            have he : j + (k0 + 1) = j + 1 + k0 := by omega
            rw [he]
            apply h k0 (by omega)
            intro m hm
            have he2 : j + 1 + m = j + (m + 1) := by omega
            rw [he2]
            exact hskip (m + 1) (by omega)
        · intro h k hk hskip
          have he : j + 1 + k = j + (k + 1) := by omega
          rw [he]
          apply h (k + 1) (by omega)
          intro m hm
          cases m with
          | zero => rw [Nat.add_zero]; exact hnl
          | succ m0 =>
            have he2 : j + (m0 + 1) = j + 1 + m0 := by omega
            rw [he2]
            exact hskip m0 (by omega)
      | false =>
        simp only [fuelDotStar, hft, hnl]
        constructor
        · intro _ k hk hskip
          cases k with
          | zero => rw [Nat.add_zero]; exact htn
          | succ k0 =>
            have := hskip 0 (by omega)
            rw [Nat.add_zero, hnl] at this
            exact absurd this (by simp)
        · intro _; trivial

theorem FuelAt_lt {t : List Char} {i k : Nat} (h : FuelAt t i k) :
    i < t.length := charAt_some_lt h.1

theorem fuelMatchAt_eq_some_iff {t : List Char} {i : Nat} {g : List Char} :
    fuelMatchAt t i = some g ↔
      ∃ k, FuelAt t i k ∧ g = tailGroup t (i + 2 + k) ∧
        ∀ m, m < k → ¬ TailAt t (i + 2 + m) := by
  unfold fuelMatchAt
  by_cases hcond : (charAt t i == some '9' && charAt t (i + 1) == some '5') = true
  · rw [if_pos hcond]
    rw [Bool.and_eq_true, beq_iff_eq, beq_iff_eq] at hcond
    rw [fuelDotStar_eq_some_iff]
    constructor
    · rintro ⟨k, _, hskip, htail, hg, hmin⟩
      exact ⟨k, ⟨hcond.1, hcond.2, hskip, htail⟩, hg, hmin⟩
    · rintro ⟨k, hfuel, hg, hmin⟩
      refine ⟨k, ?_, hfuel.2.2.1, hfuel.2.2.2, hg, hmin⟩
      have := TailAt_lt hfuel.2.2.2
      omega
  · rw [if_neg hcond]
    constructor
    · intro h; exact absurd h (by simp)
    · rintro ⟨k, hfuel, _⟩
      exfalso
      apply hcond
      rw [Bool.and_eq_true, beq_iff_eq, beq_iff_eq]
      exact ⟨hfuel.1, hfuel.2.1⟩

theorem fuelMatchAt_eq_none_iff {t : List Char} {i : Nat} :
    fuelMatchAt t i = none ↔ ∀ k, ¬ FuelAt t i k := by
  unfold fuelMatchAt
  by_cases hcond : (charAt t i == some '9' && charAt t (i + 1) == some '5') = true
  · rw [if_pos hcond]
    rw [Bool.and_eq_true, beq_iff_eq, beq_iff_eq] at hcond
    rw [fuelDotStar_eq_none_iff]
    constructor
    · intro h k hfuel
      have := TailAt_lt hfuel.2.2.2
      exact h k (by omega) hfuel.2.2.1 hfuel.2.2.2
    · intro h k _ hskip htail
      exact h k ⟨hcond.1, hcond.2, hskip, htail⟩
  · rw [if_neg hcond]
    constructor
    · intro _ k hfuel
      apply hcond
      rw [Bool.and_eq_true, beq_iff_eq, beq_iff_eq]
      exact ⟨hfuel.1, hfuel.2.1⟩
    · intro _; rfl

/-- Leftmost-preference characterization of `item_desc`: the template is
fixed (never empty); with no match anywhere the liters default to
`00.000`; with a match, the smallest start position and, at it, the
smallest dot-star skip determine the group. -/
theorem item_desc_char (t : List Char) :
    ((∀ i k, ¬ FuelAt t i k) → item_desc t = "95汽油 00.000 L") ∧
    (∀ i k, FuelAt t i k → (∀ i2, i2 < i → ∀ k2, ¬ FuelAt t i2 k2) →
      (∀ k2, k2 < k → ¬ TailAt t (i + 2 + k2)) →
      item_desc t = "95汽油 " ++ String.mk (tailGroup t (i + 2 + k)) ++ " L") ∧
    item_desc t ≠ "" := by
  have hb : ∀ j, t.length ≤ j → fuelMatchAt t j = none := by
    intro j hj
    rw [fuelMatchAt_eq_none_iff]
    intro k hfuel
    exact absurd (FuelAt_lt hfuel) (by omega)
  have hc := reSearch_characterization (fuelMatchAt t) t.length hb
  refine ⟨?_, ?_, ?_⟩
  · intro h
    have : reSearch (fuelMatchAt t) t.length = none := by
      rw [hc.1]
      intro j
      rw [fuelMatchAt_eq_none_iff]
      exact h j
    unfold item_desc litersOf
    rw [this]
    rfl
  · intro i k hfuel hmini hmink
    have hsome : fuelMatchAt t i = some (tailGroup t (i + 2 + k)) := by
      rw [fuelMatchAt_eq_some_iff]
      exact ⟨k, hfuel, rfl, hmink⟩
    have hnone : ∀ j, j < i → fuelMatchAt t j = none := by
      intro j hj
      rw [fuelMatchAt_eq_none_iff]
      exact hmini j hj
    unfold item_desc litersOf
    rw [hc.2 i _ hsome hnone]
  · intro hcon
    have : (item_desc t).data = [] := congrArg String.data hcon
    unfold item_desc at this
    rw [String.data_append, String.data_append] at this
    simp at this

theorem amtOkFor_iff {w t : List Char} {i : Nat} :
    amtOkFor w t i = true ↔ AmtOkP w t i := by
  unfold amtOkFor AmtOkP
  rw [Bool.and_eq_true, beq_iff_eq]

theorem AmtOkP_lt {w t : List Char} {i : Nat} (hw : w ≠ [])
    (h : AmtOkP w t i) : i < t.length := by
  cases hwc : w with
  | nil => exact absurd hwc hw
  | cons c r =>
    have h1 := h.1
    rw [hwc] at h1
    have := charAt_some_lt (slice_cons_charAt h1)
    omega

theorem amtMatchAt_eq_none_iff {w1 w2 t : List Char} {i : Nat} :
    amtMatchAt w1 w2 t i = none ↔ ¬ AmtAt w1 w2 t i := by
  unfold amtMatchAt
  split
  · rename_i h
    rw [amtOkFor_iff] at h
    constructor
    · intro hcon; exact absurd hcon (by simp)
    · intro hcon; exact absurd (Or.inl h) hcon
  · rename_i h1
    split
    · rename_i h
      rw [amtOkFor_iff] at h
      constructor
      · intro hcon; exact absurd hcon (by simp)
      · intro hcon; exact absurd (Or.inr h) hcon
    · rename_i h2
      constructor
      · intro _ hcon
        rcases hcon with hcon | hcon
        · exact absurd (amtOkFor_iff.mpr hcon) h1
        · exact absurd (amtOkFor_iff.mpr hcon) h2
      · intro _; rfl

/-- Generic leftmost-match characterization for the two keyword-amount
extractions, assuming the two keyword spellings never both match at one
position (their first characters differ). -/
theorem amtStr_char (w1 w2 t : List Char) (hw1 : w1 ≠ []) (hw2 : w2 ≠ [])
    (hclash : ∀ i, ¬ (slice t i w1.length = w1 ∧ slice t i w2.length = w2)) :
    (amtStr w1 w2 t = "" ↔ ∀ i, ¬ AmtAt w1 w2 t i) ∧
    (∀ i, (∀ j, j < i → ¬ AmtAt w1 w2 t j) →
      (AmtOkP w1 t i → amtStr w1 w2 t = String.mk (amtGroupFor w1 t i)) ∧
      (AmtOkP w2 t i → amtStr w1 w2 t = String.mk (amtGroupFor w2 t i))) := by
  have hb : ∀ k, t.length ≤ k → amtMatchAt w1 w2 t k = none := by
    intro k hk
    rw [amtMatchAt_eq_none_iff]
    intro hcon
    rcases hcon with hcon | hcon
    · exact absurd (AmtOkP_lt hw1 hcon) (by omega)
    · exact absurd (AmtOkP_lt hw2 hcon) (by omega)
  have hc := reSearch_characterization (amtMatchAt w1 w2 t) t.length hb
  constructor
  · constructor
    · intro h i
      cases hsr : reSearch (amtMatchAt w1 w2 t) t.length with
      | none =>
        rw [← amtMatchAt_eq_none_iff]
        exact (hc.1.mp hsr) i
      | some g =>
        exfalso
        unfold amtStr at h
        rw [hsr] at h
        obtain ⟨j, _, _, hj, _⟩ :=
          (scanFrom_eq_some_iff (amtMatchAt w1 w2 t) (t.length + 1) 0 g).mp hsr
        have hg_ne : g ≠ [] := by
          have hgen : ∀ w, AmtOkP w t j → g = amtGroupFor w t j → g ≠ [] := by
            intro w hok hg hnil
            have hdig := hok.2
            have hlt := testAt_true_lt hdig
            have hdrl : 1 ≤ drl t (amtStart w t j) := by
              unfold drl
              cases hgc : charAt t (amtStart w t j) with
              | none => rw [testAt_none hgc] at hdig; exact absurd hdig (by simp)
              | some c =>
                rw [testAt_some hgc] at hdig
                obtain ⟨hlt2, hval⟩ := List.getElem?_eq_some.mp hgc
                have hdropc : t.drop (amtStart w t j) = c :: t.drop (amtStart w t j + 1) := by
                  rw [← List.getElem_cons_drop t _ hlt2, hval]
                rw [hdropc, List.takeWhile_cons_of_pos hdig]
                simp
            have hlen : (amtGroupFor w t j).length = drl t (amtStart w t j) := by
              unfold amtGroupFor
              apply slice_length
              have hrun : drl t (amtStart w t j) ≤ t.length - amtStart w t j := by
                unfold drl
                have htw : ((t.drop (amtStart w t j)).takeWhile Char.isDigit).length ≤
                    (t.drop (amtStart w t j)).length :=
                  (List.takeWhile_prefix Char.isDigit).length_le
                rw [List.length_drop] at htw
                exact htw
              omega
            rw [hg] at hnil
            rw [hnil] at hlen
            simp at hlen
            omega
          unfold amtMatchAt at hj
          split at hj
          · rename_i hok
            rw [amtOkFor_iff] at hok
            injection hj with hg
            exact hgen w1 hok hg.symm
          · split at hj
            · rename_i hok
              rw [amtOkFor_iff] at hok
              injection hj with hg
              exact hgen w2 hok hg.symm
            · exact absurd hj (by simp)
        exact String_mk_ne_empty hg_ne h
    · intro h
      unfold amtStr
      have : reSearch (amtMatchAt w1 w2 t) t.length = none := by
        rw [hc.1]
        intro k
        rw [amtMatchAt_eq_none_iff]
        exact h k
      rw [this]
  · intro i hmin
    have hnone : ∀ k, k < i → amtMatchAt w1 w2 t k = none := by
      intro k hk
      rw [amtMatchAt_eq_none_iff]
      exact hmin k hk
    constructor
    · intro hok1
      have hsome : amtMatchAt w1 w2 t i = some (amtGroupFor w1 t i) := by
        unfold amtMatchAt
        rw [if_pos (amtOkFor_iff.mpr hok1)]
      unfold amtStr
      rw [hc.2 i _ hsome hnone]
    · intro hok2
      have hn1 : ¬ AmtOkP w1 t i := by
        intro hok1
        exact hclash i ⟨hok1.1, hok2.1⟩
      have hsome : amtMatchAt w1 w2 t i = some (amtGroupFor w2 t i) := by
        unfold amtMatchAt
        rw [if_neg (fun hcon => hn1 (amtOkFor_iff.mp hcon)),
          if_pos (amtOkFor_iff.mpr hok2)]
      unfold amtStr
      rw [hc.2 i _ hsome hnone]

/-! ## Claims -/

/-- C1, counterexample: in `"A12345678"` the digit run `12345678` is
bounded by non-digit boundaries (a letter on the left, text end on the
right), so the claim's reading extracts it — but the code's `\b` word
boundary rejects the letter-adjacent run and the extracted seller id is
empty. -/
theorem seller_id_nondigit_boundary_cex :
    claimSellerId ("A12345678".data) = "12345678" ∧
    seller_id ("A12345678".data) = "" := by
  constructor
  · decide
  · decide

/-- C1 (amended): for every input text, `seller_id` is the first run of
exactly 8 digits bounded by word boundaries — the adjacent characters,
when present, are not word characters (letters, digits, or underscore;
CJK ideographs count as letters) — taken as a literal substring, and is
empty when the text has no such run. -/
theorem seller_id_first_word_bounded_run (t : List Char) :
    (seller_id t = "" ↔ ∀ i, ¬ SellerRunAt t i) ∧
    (∀ i, SellerRunAt t i → (∀ j, j < i → ¬ SellerRunAt t j) →
      seller_id t = String.mk (slice t i 8)) :=
  seller_id_char t

theorem seller_id_first_word_bounded_run_witness :
    seller_id ("統編:12345678 號".data) = "12345678" := by
  have h := (seller_id_first_word_bounded_run ("統編:12345678 號".data)).2 3
    (by decide) (by decide)
  rw [h]
  rfl

/-- C2: for every input text, `invoice_date` comes from the first
occurrence of year-sep-month-sep-day (sep among `/`, `.`, `-`; year 3
or 4 digits — at one position only one width can match; month and day
2 digits); a 3-digit year has 1911 added, the output is `/`-separated,
and the date is empty when there is no occurrence.  In particular
`113/05/20` gives `2024/05/20` and `2024-05-20` gives `2024/05/20`. -/
theorem invoice_date_first_normalized (t : List Char) :
    ((date_str t = "" ↔ ∀ i, ¬ AnyDateAt t i) ∧
    (∀ i, AnyDateAt t i → (∀ j, j < i → ¬ AnyDateAt t j) →
      (DateAt t i 4 →
        date_str t = dateFormat (slice t i 4) (slice t (i + 5) 2) (slice t (i + 8) 2)) ∧
      (DateAt t i 3 →
        date_str t = dateFormat (slice t i 3) (slice t (i + 4) 2) (slice t (i + 7) 2)))) ∧
    date_str ("日期:113/05/20 加油".data) = "2024/05/20" ∧
    date_str ("日期:2024-05-20 加油".data) = "2024/05/20" :=
  ⟨date_str_char t, by decide, by decide⟩

theorem invoice_date_first_normalized_witness :
    date_str ("113/05/20".data) = "2024/05/20" := by
  have h := ((invoice_date_first_normalized ("113/05/20".data)).1.2 0
    (by decide) (fun j hj => absurd hj (Nat.not_lt_zero j))).2 (by decide)
  rw [h]
  rfl

/-- C3: for every input text, `invoice_number` comes from the first
occurrence of 2 uppercase letters, optionally one `-`/space separator,
then 8 digits, output with the separator removed; empty when there is
no occurrence.  In particular `AB-12345678`, `AB 12345678` and
`AB12345678` all give `AB12345678`. -/
theorem invoice_number_first_concat (t : List Char) :
    ((inv_number t = "" ↔ ∀ i, ¬ InvAt t i) ∧
    (∀ i, (∀ j, j < i → ¬ InvAt t j) →
      (InvSepAt t i →
        inv_number t = String.mk (slice t i 2 ++ slice t (i + 3) 8)) ∧
      (InvDirAt t i →
        inv_number t = String.mk (slice t i 2 ++ slice t (i + 2) 8)))) ∧
    inv_number ("AB-12345678".data) = "AB12345678" ∧
    inv_number ("AB 12345678".data) = "AB12345678" ∧
    inv_number ("AB12345678".data) = "AB12345678" :=
  ⟨inv_number_char t, by decide, by decide, by decide⟩

theorem invoice_number_first_concat_witness :
    inv_number ("XY-55667788".data) = "XY55667788" := by
  have h := ((invoice_number_first_concat ("XY-55667788".data)).1.2 0
    (fun j hj => absurd hj (Nat.not_lt_zero j))).1 (by decide)
  rw [h]
  rfl

/-- C4, counterexample: in `"95\n\n1.234"` the decimal `1.234` (with
exactly 3 fractional digits) follows the first literal `95` across
intervening characters, so the claim's reading gives liters `1.234` —
but `.` in the code's regex does not match a newline and `\s?` can
absorb only one of the two, so the code falls back to the default and
the item description is `95汽油 00.000 L`. -/
theorem item_desc_newline_cex :
    claimFuelLiters ("95\n\n1.234".data) = some ('1' :: '.' :: '2' :: '3' :: '4' :: []) ∧
    item_desc ("95\n\n1.234".data) = "95汽油 00.000 L" := by
  constructor
  · decide
  · decide

/-- C4 (amended): for every input text, `item_description` is the fixed
template `95汽油 <liters> L` (hence never empty), where liters is the
group `\d+\.\d{3}` of the code's pattern at the leftmost start of a
literal `95` from which it completes, with the smallest, newline-free
dot-star skip (one whitespace character — possibly a newline — may
additionally precede the number); when the pattern matches nowhere
liters is `00.000`.  In particular `95無鉛汽油 23.456 L` gives
`95汽油 23.456 L`. -/
theorem item_desc_leftmost_nonnewline (t : List Char) :
    (((∀ i k, ¬ FuelAt t i k) → item_desc t = "95汽油 00.000 L") ∧
    (∀ i k, FuelAt t i k → (∀ i2, i2 < i → ∀ k2, ¬ FuelAt t i2 k2) →
      (∀ k2, k2 < k → ¬ TailAt t (i + 2 + k2)) →
      item_desc t = "95汽油 " ++ String.mk (tailGroup t (i + 2 + k)) ++ " L") ∧
    item_desc t ≠ "") ∧
    item_desc ("95無鉛汽油 23.456 L".data) = "95汽油 23.456 L" :=
  ⟨item_desc_char t, by decide⟩

theorem item_desc_leftmost_nonnewline_witness :
    item_desc ("95 1.234".data) = "95汽油 1.234 L" := by
  have h := (item_desc_leftmost_nonnewline ("95 1.234".data)).1.2.1 0 0 (by decide)
    (fun i2 hi2 k2 => absurd hi2 (Nat.not_lt_zero i2))
    (fun k2 hk2 => absurd hk2 (Nat.not_lt_zero k2))
  rw [h]
  rfl

theorem salesKw_clash (t : List Char) :
    ∀ i, ¬ (slice t i salesKw1.length = salesKw1 ∧
      slice t i salesKw2.length = salesKw2) := by
  rintro i ⟨h1, h2⟩
  have e1 : slice t i salesKw1.length = '銷' :: ('售' :: '額' :: []) := h1
  have e2 : slice t i salesKw2.length =
      'A' :: ('m' :: 'o' :: 'u' :: 'n' :: 't' :: []) := h2
  have c1 := slice_cons_charAt e1
  have c2 := slice_cons_charAt e2
  rw [c1] at c2
  simp at c2

theorem taxKw_clash (t : List Char) :
    ∀ i, ¬ (slice t i taxKw1.length = taxKw1 ∧
      slice t i taxKw2.length = taxKw2) := by
  rintro i ⟨h1, h2⟩
  have e1 : slice t i taxKw1.length = '稅' :: ('額' :: []) := h1
  have e2 : slice t i taxKw2.length = 'T' :: ('a' :: 'x' :: []) := h2
  have c1 := slice_cons_charAt e1
  have c2 := slice_cons_charAt e2
  rw [c1] at c2
  simp at c2

/-- C5: for every input text, `sales_amount` is the digit run following
the first occurrence of a sales keyword (`銷售額` or `Amount`) separated
from the digits by an optional run of `:` and spaces, and `tax_amount`
follows the same rule with the tax keywords (`稅額` or `Tax`); each is
empty when its keyword-and-number pattern occurs nowhere. -/
theorem amounts_keyword_first (t : List Char) :
    (sales_amt t = "" ↔ ∀ i, ¬ AmtAt salesKw1 salesKw2 t i) ∧
    (tax_amt t = "" ↔ ∀ i, ¬ AmtAt taxKw1 taxKw2 t i) ∧
    (∀ i, (∀ j, j < i → ¬ AmtAt salesKw1 salesKw2 t j) →
      (AmtOkP salesKw1 t i → sales_amt t = String.mk (amtGroupFor salesKw1 t i)) ∧
      (AmtOkP salesKw2 t i → sales_amt t = String.mk (amtGroupFor salesKw2 t i))) ∧
    (∀ i, (∀ j, j < i → ¬ AmtAt taxKw1 taxKw2 t j) →
      (AmtOkP taxKw1 t i → tax_amt t = String.mk (amtGroupFor taxKw1 t i)) ∧
      (AmtOkP taxKw2 t i → tax_amt t = String.mk (amtGroupFor taxKw2 t i))) := by
  have hs := amtStr_char salesKw1 salesKw2 t (by decide) (by decide) (salesKw_clash t)
  have ht := amtStr_char taxKw1 taxKw2 t (by decide) (by decide) (taxKw_clash t)
  exact ⟨hs.1, ht.1, hs.2, ht.2⟩

theorem amounts_keyword_first_witness :
    sales_amt ("銷售額:1200 稅額:60".data) = "1200" ∧
    tax_amt ("銷售額:1200 稅額:60".data) = "60" := by
  constructor
  · have h := ((amounts_keyword_first ("銷售額:1200 稅額:60".data)).2.2.1 0
      (fun j hj => absurd hj (Nat.not_lt_zero j))).1 (by decide)
    rw [h]
    rfl
  · have h := ((amounts_keyword_first ("銷售額:1200 稅額:60".data)).2.2.2 9
      (by decide)).1 (by decide)
    rw [h]
    rfl

/-- C6: the field extractor is a total pure function of the flattened
OCR text — in this embedding `extract_info` is a total Lean function
into `Record` — and each of the six fields independently takes its
default (the empty string, or liters `00.000`) when its own pattern
matches nowhere, with no assumption on the other five patterns. -/
theorem extract_info_total_defaults (t : List Char) :
    ((∀ i, ¬ SellerRunAt t i) → (extract_info t).sellerId = "") ∧
    ((∀ i, ¬ AnyDateAt t i) → (extract_info t).invoiceDate = "") ∧
    ((∀ i, ¬ InvAt t i) → (extract_info t).invoiceNumber = "") ∧
    ((∀ i k, ¬ FuelAt t i k) → (extract_info t).itemDescription = "95汽油 00.000 L") ∧
    ((∀ i, ¬ AmtAt salesKw1 salesKw2 t i) → (extract_info t).salesAmount = "") ∧
    ((∀ i, ¬ AmtAt taxKw1 taxKw2 t i) → (extract_info t).taxAmount = "") := by
  refine ⟨?_, ?_, ?_, ?_, ?_, ?_⟩
  · intro h
    exact (seller_id_char t).1.mpr h
  · intro h
    exact (date_str_char t).1.mpr h
  · intro h
    exact (inv_number_char t).1.mpr h
  · intro h
    exact (item_desc_char t).1 h
  · intro h
    exact (amtStr_char salesKw1 salesKw2 t (by decide) (by decide)
      (salesKw_clash t)).1.mpr h
  · intro h
    exact (amtStr_char taxKw1 taxKw2 t (by decide) (by decide)
      (taxKw_clash t)).1.mpr h

theorem extract_info_total_defaults_witness :
    (extract_info []).sellerId = "" ∧ (extract_info []).invoiceDate = "" ∧
    (extract_info []).invoiceNumber = "" ∧
    (extract_info []).itemDescription = "95汽油 00.000 L" ∧
    (extract_info []).salesAmount = "" ∧ (extract_info []).taxAmount = "" := by
  have h := extract_info_total_defaults []
  refine ⟨h.1 ?_, h.2.1 ?_, h.2.2.1 ?_, h.2.2.2.1 ?_, h.2.2.2.2.1 ?_,
    h.2.2.2.2.2 ?_⟩
  · intro i hc
    have hd := hc.2.1 0 (by omega)
    rw [Nat.add_zero] at hd
    exact absurd (testAt_true_lt hd) (Nat.not_lt_zero i)
  · intro i hc
    rcases hc with hc | hc <;>
      · have hd := hc.1 0 (by omega)
        rw [Nat.add_zero] at hd
        exact absurd (testAt_true_lt hd) (Nat.not_lt_zero i)
  · intro i hc
    rcases hc with hc | hc <;>
      · have hd := hc.1 0 (by omega)
        rw [Nat.add_zero] at hd
        exact absurd (testAt_true_lt hd) (Nat.not_lt_zero i)
  · intro i k hc
    exact absurd (charAt_some_lt hc.1) (Nat.not_lt_zero i)
  · intro i hc
    rcases hc with hc | hc
    · have e : slice [] i salesKw1.length = '銷' :: ('售' :: '額' :: []) := hc.1
      exact absurd (charAt_some_lt (slice_cons_charAt e)) (Nat.not_lt_zero i)
    · have e : slice [] i salesKw2.length =
          'A' :: ('m' :: 'o' :: 'u' :: 'n' :: 't' :: []) := hc.1
      exact absurd (charAt_some_lt (slice_cons_charAt e)) (Nat.not_lt_zero i)
  · intro i hc
    rcases hc with hc | hc
    · have e : slice [] i taxKw1.length = '稅' :: ('額' :: []) := hc.1
      exact absurd (charAt_some_lt (slice_cons_charAt e)) (Nat.not_lt_zero i)
    · have e : slice [] i taxKw2.length = 'T' :: ('a' :: 'x' :: []) := hc.1
      exact absurd (charAt_some_lt (slice_cons_charAt e)) (Nat.not_lt_zero i)

/-- C7: for every prior store state (with the app's schema) and every
record, the append handler adds the record's row at the end without any
validation or deduplication, keeps the columns, preserves every
previously stored row at its position with its cell values, and grows
the row count by exactly one. -/
theorem append_record_additive (df : DataFrame) (r : Record)
    (h : df.cols = schemaCols) :
    (appendRecord df r).cols = df.cols ∧
    (appendRecord df r).rows = df.rows ++ [toRow r] ∧
    (∀ i, i < df.rows.length → (appendRecord df r).rows[i]? = df.rows[i]?) ∧
    (appendRecord df r).rows.length = df.rows.length + 1 := by
  have hcond : df.cols = (recordDF r).cols := h
  unfold appendRecord pdConcat
  rw [if_pos hcond]
  refine ⟨rfl, rfl, ?_, by simp [recordDF]⟩
  intro i hi
  exact List.getElem?_append_left hi

theorem append_record_additive_witness :
    (appendRecord initDF (extract_info [])).rows.length = 1 := by
  have h := append_record_additive initDF (extract_info []) rfl
  rw [h.2.2.2]
  rfl

/-- C8: for every prior store state, the clear handler yields a table
with exactly zero rows and exactly the original six columns in schema
order, independent of the prior row count; every subsequent read sees
this empty six-column table. -/
theorem clear_resets_schema (df : DataFrame) :
    (clearDF df).rows = [] ∧ (clearDF df).rows.length = 0 ∧
    (clearDF df).cols = schemaCols ∧ (clearDF df).cols.length = 6 :=
  ⟨rfl, rfl, rfl, rfl⟩

/-- C9: for every non-empty store with the app's schema, export hands
the spreadsheet writer the current table verbatim as a single sheet
named `發票紀錄` whose header row is the six field names in schema
order, and reading the sheet back yields the same cells in the same
row and column order. -/
theorem export_sheet_roundtrip (df : DataFrame) (_h : dfEmpty df = false)
    (hc : df.cols = schemaCols) :
    (exportSheet df).name = "發票紀錄" ∧
    (exportSheet df).cells.head? = some schemaCols ∧
    (exportSheet df).cells = df.cols :: df.rows ∧
    readSheet (exportSheet df) = df := by
  refine ⟨rfl, ?_, rfl, rfl⟩
  unfold exportSheet
  rw [← hc]
  rfl

theorem export_sheet_roundtrip_witness :
    readSheet (exportSheet (appendRecord initDF (extract_info []))) =
      appendRecord initDF (extract_info []) :=
  (export_sheet_roundtrip (appendRecord initDF (extract_info []))
    (by decide) (by decide)).2.2.2

/-- C10: from initialization onward, every reachable store state has
exactly the six columns 賣方統編, 發票日期, 發票號碼, 項目, 憑證金額,
原幣稅額 in that order — the schema is preserved by initialization, by
appending an extracted record (whose keys are exactly these fields),
by interactive edits, and by clear. -/
theorem reachable_schema_invariant (df : DataFrame) (h : Reachable df) :
    df.cols = schemaCols := by
  induction h with
  | init => rfl
  | append df r _ ih =>
    have hcond : df.cols = (recordDF r).cols := ih
    unfold appendRecord pdConcat
    rw [if_pos hcond]
    exact ih
  | edit df rows _ ih => exact ih
  | clear df _ _ => rfl

theorem reachable_schema_invariant_witness : initDF.cols = schemaCols :=
  reachable_schema_invariant initDF Reachable.init

end InvoiceApp
